import Mathlib

/-!
Verification development for the libwapiti API facade (`src/api.c`).

C strings are embedded as `List Char` (a C string holds no interior NUL;
`strlen` becomes `List.length`).  External wapiti collaborators (the pattern
compiler `pat_comp`, the reader `rdr_raw2seq`, the decoder `tag_viterbi` with
the label symbol table `qrk_id2str`, the persistence loader `mdl_load`, the
trainers, and the C library's `fopen`/`strerror`) are opaque in the spec and
are taken as parameters of the embedded functions.
-/

namespace Wapiti

/-- Decidable equality for `Except`, so that the concrete witnesses below can
be checked by `decide`. -/
instance {ε α : Type} [DecidableEq ε] [DecidableEq α] : DecidableEq (Except ε α)
  | .error e, .error f =>
    if h : e = f then .isTrue (by rw [h]) else .isFalse (by simp [h])
  | .error _, .ok _ => .isFalse (by simp)
  | .ok _, .error _ => .isFalse (by simp)
  | .ok a, .ok b =>
    if h : a = b then .isTrue (by rw [h]) else .isFalse (by simp [h])

/-- Shorthand: turn a Lean string literal into the `List Char` embedding of a
C string. -/
def toChars (s : String) : List Char := s.toList

/-- The NUL character written by the tokenizers over delimiter bytes. -/
def nulC : Char := Char.ofNat 0

/-- C `isspace` on the default locale (ASCII): space, \t, \n, \v, \f, \r. -/
def isspaceC (c : Char) : Bool :=
  c = ' ' || c = '\t' || c = '\n' || c = Char.ofNat 11 || c = Char.ofNat 12 || c = '\x0d'

/-- C `tolower` on the default locale (ASCII). -/
def toLowerChar (c : Char) : Char :=
  if 65 ≤ c.toNat ∧ c.toNat ≤ 90 then Char.ofNat (c.toNat + 32) else c

/-- `line[0] = tolower(line[0])` (api.c line 198). -/
def lowerFirst : List Char → List Char
  | [] => []
  | c :: cs => toLowerChar c :: cs

/-- In-bounds array write `l[i] = c`; a write at or past the terminator slot
of the modelled string is invisible in the `List Char` embedding. -/
def writeAt (l : List Char) (i : Nat) (c : Char) : List Char :=
  if i < l.length then l.take i ++ c :: l.drop (i + 1) else l

/-!
## strtok-based line splitting

`api_str2raw` (api.c 37-54) and `api_load_patterns` (api.c 188) both iterate
`strtok(seq, "\n")` / `strtok(NULL, "\n")`: the tokens are the maximal
non-empty runs of non-newline characters, in order.  `strtokGo` scans the
buffer character by character, accumulating the current token reversed.
-/

/-- Worker for `strtokLines`: `acc` holds the current partial token,
reversed. -/
def strtokGo (acc : List Char) : List Char → List (List Char)
  | [] => if acc.isEmpty then [] else [acc.reverse]
  | c :: rest =>
    if c = '\n' then
      if acc.isEmpty then strtokGo [] rest
      else acc.reverse :: strtokGo [] rest
    else strtokGo (c :: acc) rest

/-- The token sequence produced by the `strtok(seq, "\n")` loop. -/
def strtokLines (s : List Char) : List (List Char) := strtokGo [] s

/-- `api_str2raw` (api.c 37-54): splits a buffer into lines and `strdup`s each
one; the value of the produced `raw_t` is exactly the list of tokens. -/
def api_str2raw (s : List Char) : List (List Char) := strtokLines s

/-!
## Comment stripping (api.c 190-198)

`int end = strcspn(line, "#"); while (end != 0 && isspace(line[end-1])) end--;`
-/

/-- `strcspn(line, "#")`: length of the maximal prefix free of `'#'`. -/
def strcspnHash (l : List Char) : Nat := (l.takeWhile (· ≠ '#')).length

/-- The `while (end != 0 && isspace(line[end - 1])) end--;` loop, by
recursion on the index. -/
def stripWsIdx (l : List Char) : Nat → Nat
  | 0 => 0
  | e + 1 => if isspaceC (l.getD e 'a') then stripWsIdx l e else e + 1

/-- Index at which a pattern line is truncated: first `'#'`, then trailing
whitespace stripped. -/
def stripIdx (l : List Char) : Nat := stripWsIdx l (strcspnHash l)

/-- The surviving content of a pattern line after comment/whitespace
stripping (`line[end] = '\0'`). -/
def stripComment (l : List Char) : List Char := l.take (stripIdx l)

/-!
## Data model
-/

/-- A compiled feature template (`pat_t`): the embedding only exposes its
token span `ntoks` and the source string it was compiled from. -/
structure Pat where
  ntoks : Nat
  src : List Char
deriving DecidableEq

/-- The reader state mutated by `api_load_patterns` (`rdr_t` fields used in
api.c): total, unigram and bigram pattern counts, maximum token span, and the
pattern list. -/
structure Rdr where
  npats : Nat
  nuni : Nat
  nbi : Nat
  ntoks : Nat
  pats : List Pat
deriving DecidableEq

/-- Modelled from the spec: `rdr_new` is external to this repository;
§3 of the design requires the scope counts to be aggregates consistent with
the (initially empty) pattern list, so a fresh reader has zero counts and no
patterns. -/
def rdr_new : Rdr := ⟨0, 0, 0, 0, []⟩

/-- Fatal conditions raised by api.c through `fatal(...)`. -/
inductive ApiFatal where
  | unknownModelType : List Char → ApiFatal
  | unknownPatternType : Char → ApiFatal
  | unknownAlgorithm : List Char → ApiFatal
deriving DecidableEq

/-- The configuration record (`opt_t` fields read by api.c). -/
structure Opt where
  typ : List Char
  algo : List Char
  maxiter : Int
  maxent : Bool
  check : Bool
deriving DecidableEq

/-- The model (`mdl_t` fields used by api.c): validated type tag, reader
state, configuration, and the training corpus.  A stored training sequence is
represented by its length (`seq->len`), the only field api.c reads back. -/
structure Mdl where
  typ : Nat
  reader : Rdr
  opt : Opt
  train : List Nat
  mlen : Nat
deriving DecidableEq

/-!
## Pattern loading (api.c 186-219)
-/

/-- Body of the `api_load_patterns` loop for one strtok token.  Follows
api.c 190-216: strip comment/whitespace, skip if empty, lowercase the first
character, clone and compile, bump `npats`, classify by the selector
character ('u' / 'b' / '*', anything else fatal), append the pattern and
update the span maximum.  On the fatal path the error carries the reader
state at the abort point. -/
def processLine (pc : List Char → Pat) (rdr : Rdr) (line : List Char) :
    Except (ApiFatal × Rdr) Rdr :=
  let e := stripIdx line
  if e = 0 then .ok rdr
  else
    let patline := lowerFirst (line.take e)
    let pat := pc patline
    let rdr1 : Rdr := { rdr with npats := rdr.npats + 1 }
    let sel := patline.headD 'a'
    if sel = 'u' then
      let rdr2 := { rdr1 with nuni := rdr1.nuni + 1 }
      .ok { rdr2 with pats := rdr2.pats ++ [pat], ntoks := max rdr2.ntoks pat.ntoks }
    else if sel = 'b' then
      let rdr2 := { rdr1 with nbi := rdr1.nbi + 1 }
      .ok { rdr2 with pats := rdr2.pats ++ [pat], ntoks := max rdr2.ntoks pat.ntoks }
    else if sel = '*' then
      let rdr2 := { rdr1 with nuni := rdr1.nuni + 1, nbi := rdr1.nbi + 1 }
      .ok { rdr2 with pats := rdr2.pats ++ [pat], ntoks := max rdr2.ntoks pat.ntoks }
    else .error (.unknownPatternType sel, rdr1)

/-- The `api_load_patterns` loop over all tokens; a fatal line aborts the
whole call (default handlers terminate the process). -/
def loadLines (pc : List Char → Pat) (rdr : Rdr) :
    List (List Char) → Except (ApiFatal × Rdr) Rdr
  | [] => .ok rdr
  | l :: ls =>
    match processLine pc rdr l with
    | .ok r => loadLines pc r ls
    | .error e => .error e

/-- `api_load_patterns(mdl, lines)` (api.c 186-219). -/
def api_load_patterns (pc : List Char → Pat) (mdl : Mdl) (text : List Char) :
    Except (ApiFatal × Mdl) Mdl :=
  match loadLines pc mdl.reader (strtokLines text) with
  | .ok r => .ok { mdl with reader := r }
  | .error (f, r) => .error (f, { mdl with reader := r })

/-- The selector character a non-skipped line is classified by (the
lowercased first surviving character), `none` when the line is skipped. -/
def lineSel (l : List Char) : Option Char :=
  if stripIdx l = 0 then none
  else some ((lowerFirst (l.take (stripIdx l))).headD 'a')

/-- Number of tokens of a text classified with selector `c`. -/
def cntSel (c : Char) (ls : List (List Char)) : Nat :=
  (ls.filter (fun l => lineSel l = some c)).length

/-- The pattern a surviving line compiles to. -/
def compLine (pc : List Char → Pat) (l : List Char) : Pat :=
  pc (lowerFirst (l.take (stripIdx l)))

/-- The compiled patterns contributed by a list of tokens. -/
def compiledOf (pc : List Char → Pat) (ls : List (List Char)) : List Pat :=
  (ls.filter (fun l => stripIdx l ≠ 0)).map (compLine pc)

/-- Number of non-skipped lines of a pattern text whose selector is `'*'`. -/
def bothCount (text : List Char) : Nat := cntSel '*' (strtokLines text)

/-!
## Model facade (api.c 95-133)
-/

/-- The fixed model-type registry `typ_lst` (api.c 70-74). -/
def typ_lst : List (List Char) := [toChars "maxent", toChars "memm", toChars "crf"]

/-- `api_new_model(options, patterns)` (api.c 95-122): looks the configured
type name up in `typ_lst` (the C loop breaks at the first `strcmp` match and
falls through to `typ_cnt` when none matches, which is fatal), then loads the
optional pattern text, then leaves an empty training corpus. -/
def api_new_model (pc : List Char → Pat) (options : Opt)
    (patterns : Option (List Char)) : Except (ApiFatal × Mdl) Mdl :=
  let mdl0 : Mdl := { typ := 0, reader := rdr_new, opt := options, train := [], mlen := 0 }
  let typ := typ_lst.findIdx (· == options.typ)
  if typ = typ_lst.length then .error (.unknownModelType options.typ, mdl0)
  else
    let mdl1 := { mdl0 with typ := typ }
    match patterns with
    | none => .ok mdl1
    | some p => api_load_patterns pc mdl1 p

/-- `api_add_train_seq(mdl, lines)` (api.c 222-233): split, convert via the
external reader (`raw2seq` gives the resulting `seq->len`), append, update
the running maximum length. -/
def api_add_train_seq (raw2seq : List (List Char) → Nat) (mdl : Mdl)
    (text : List Char) : Mdl :=
  let raw := api_str2raw text
  let len := raw2seq raw
  { mdl with train := mdl.train ++ [len], mlen := max mdl.mlen len }

/-!
## Training dispatch (api.c 61-67, 79-91, 236-251)
-/

/-- The fixed algorithm registry names `trn_lst` (api.c 79-91). -/
def trn_names : List (List Char) :=
  [toChars "l-bfgs", toChars "sgd-l1", toChars "bcd", toChars "rprop",
   toChars "rprop+", toChars "rprop-", toChars "auto"]

/-- Observable calls made by `api_train` to its external collaborators:
`mdl_sync`, `uit_setup`, the resolved trainer (registry index, plus whether
the cooperative-cancellation flag fired during it), `uit_cleanup`. -/
inductive TrnEvent where
  | sync : TrnEvent
  | setup : TrnEvent
  | runTrainer : Nat → Bool → TrnEvent
  | cleanup : TrnEvent
deriving DecidableEq

/-- `api_train(mdl)` (api.c 236-251) as a trace of external calls.
`cancelled` records whether the trainer was cooperatively cancelled; either
way the trainer returns and the subsequent calls run. -/
def api_train (cancelled : Bool) (mdl : Mdl) : Except ApiFatal (List TrnEvent) :=
  let trn := trn_names.findIdx (· == mdl.opt.algo)
  if trn = trn_names.length then .error (.unknownAlgorithm mdl.opt.algo)
  else
    let ev1 := [TrnEvent.sync]
    let ev2 := ev1 ++ [TrnEvent.setup]
    let ev3 := ev2 ++ [TrnEvent.runTrainer trn cancelled]
    let ev4 := ev3 ++ [TrnEvent.cleanup]
    .ok ev4

/-- The state `trn_auto` manipulates: the configuration's maximum-iteration
count plus the (opaque) trained parameters, of some type `Θ`. -/
structure TrnState (Θ : Type) where
  maxiter : Int
  params : Θ
deriving DecidableEq

/-- `trn_auto(mdl)` (api.c 61-67).  The external trainers `trn_sgdl1` and
`trn_lbfgs` receive the whole state, exactly as the C routines receive
`mdl`. -/
def trn_auto {Θ : Type} (trn_sgdl1 trn_lbfgs : TrnState Θ → TrnState Θ)
    (st : TrnState Θ) : TrnState Θ :=
  let maxiter := st.maxiter
  let st1 := { st with maxiter := 3 }
  let st2 := trn_sgdl1 st1
  let st3 := { st2 with maxiter := maxiter }
  let st4 := trn_lbfgs st3
  st4

/-!
## Log wrappers (api.c 308-378)
-/

/-- `const int MAXLOGMSG = 1400` (api.c 312). -/
def MAXLOGMSG : Nat := 1400

/-- `char *OOMMSG = "out of memory\n"` (api.c 313). -/
def OOMMSG : List Char := toChars "out of memory\n"

/-- `vsnprintf(message, MAXLOGMSG, ...)`: at most `MAXLOGMSG - 1` characters
of the fully rendered message are stored. -/
def vsnprintfBounded (full : List Char) : List Char := full.take (MAXLOGMSG - 1)

/-- `__wrap_fatal` (api.c 321-332): the message dispatched to the FATAL
handler.  `allocOk` is whether `malloc(MAXLOGMSG)` succeeded; `full` is the
fully rendered format. -/
def wrap_fatal (allocOk : Bool) (full : List Char) : List Char :=
  if allocOk then vsnprintfBounded full else OOMMSG

/-- `__wrap_warning` (api.c 353-365): the message dispatched to the WARNING
handler (freed afterwards, which the value model need not track). -/
def wrap_warning (allocOk : Bool) (full : List Char) : List Char :=
  if allocOk then vsnprintfBounded full else OOMMSG

/-- `__wrap_info` (api.c 366-378): the message dispatched to the INFO
handler. -/
def wrap_info (allocOk : Bool) (full : List Char) : List Char :=
  if allocOk then vsnprintfBounded full else OOMMSG

/-- `__wrap_pfatal` (api.c 333-347): render bounded by `MAXLOGMSG`, then
`snprintf(message+msglen, MAXLOGMSG-msglen, " <%s>", err)` appends the OS
error description, itself bounded by the remaining share of `MAXLOGMSG`. -/
def wrap_pfatal (allocOk : Bool) (full err : List Char) : List Char :=
  if allocOk then
    let message := vsnprintfBounded full
    message ++ (toChars " <" ++ err ++ toChars ">").take (MAXLOGMSG - message.length - 1)
  else OOMMSG

/-- The rendering of api.c's `fatal` format strings. -/
def renderFatal : ApiFatal → List Char
  | .unknownModelType s => toChars "unknown model type '" ++ s ++ toChars "'"
  | .unknownPatternType c => toChars "unknown pattern type '" ++ [c] ++ toChars "'"
  | .unknownAlgorithm s => toChars "unknown algorithm '" ++ s ++ toChars "'"

/-- Rendering of `"cannot open input model file: %s"` (api.c 130). -/
def cannotOpenMsg (filename : List Char) : List Char :=
  toChars "cannot open input model file: " ++ filename

/-- `api_load_model(filename, options)` (api.c 125-133).  `fopenF` models the
file system (`none` = `fopen` failed), `errnoStr` the `strerror(errno)`
description at that point, `mdl_load` the external persistence loader.  The
error value is the message dispatched to the fatal handler. -/
def api_load_model {F : Type} (fopenF : List Char → Option F)
    (mdl_load : Mdl → F → Mdl) (errnoStr : List Char) (pc : List Char → Pat)
    (filename : List Char) (options : Opt) : Except (List Char) Mdl :=
  match api_new_model pc options none with
  | .error e => .error (wrap_fatal true (renderFatal e.1))
  | .ok mdl =>
    match fopenF filename with
    | none => .error (wrap_pfatal true (cannotOpenMsg filename) errnoStr)
    | some f => .ok (mdl_load mdl f)

/-!
## Tagging pipeline (api.c 139-182)
-/

/-- The bytes `snprintf(..., "%s\t%s\n", line, lblstr)` formats for one
output row. -/
def fmtRow (line lbl : List Char) : List Char := line ++ '\t' :: (lbl ++ ['\n'])

/-- State of the output-building loop of `api_label_seq`: current buffer
capacity `outsize`, write position `pos`, and the characters actually written
so far. -/
structure LoopSt where
  outsize : Nat
  pos : Nat
  buf : List Char
deriving DecidableEq

/-- One iteration of the loop at api.c 162-171.  `rowsize` counts the row
plus its terminator; if it does not fit, the capacity grows by
`rowsize * (T - t)`.  `snprintf(lblseq+pos, outsize-pos, ...)` stores at most
`outsize - pos - 1` characters but returns (and `pos` advances by) the full
formatted length. -/
def labelStep (T t : Nat) (st : LoopSt) (line lbl : List Char) : LoopSt :=
  let rowsize := line.length + lbl.length + 3
  let outsize := if st.pos + rowsize > st.outsize
    then st.outsize + rowsize * (T - t) else st.outsize
  let row := fmtRow line lbl
  let written := min row.length (outsize - st.pos - 1)
  { outsize := outsize, pos := st.pos + row.length, buf := st.buf ++ row.take written }

/-- The loop at api.c 162-171 over the remaining (line, label) rows. -/
def labelLoop (T : Nat) : Nat → List (List Char × List Char) → LoopSt → LoopSt
  | _, [], st => st
  | t, r :: rs, st => labelLoop T (t + 1) rs (labelStep T t st r.1 r.2)

/-- `api_label_seq(mdl, lines)` (api.c 139-182).  `labels` is the per-position
label-string sequence the external decoder and label symbol table produce
(its length matches the number of lines; stated as a hypothesis where
needed).  Initial capacity is the input length plus 5 per line. -/
def api_label_seq (labels : List (List Char)) (lines : List Char) : List Char :=
  let outsize := lines.length
  let raw := api_str2raw lines
  let T := raw.length
  let st := labelLoop T 0 (raw.zip labels) ⟨outsize + 5 * T, 0, []⟩
  st.buf

/-!
## Destructive tokenization of the caller's buffer

`strtok` writes a NUL over the delimiter that terminates each extracted
token; `api_load_patterns` additionally writes `line[end] = '\0'` and
lowercases `line[0]` inside each surviving token.  The functions below give
the caller's buffer contents after the call.
-/

/-- Buffer contents after the `strtok` loop, token at a time as the C loop
proceeds (fuel-driven; `fuel ≥ length` always suffices). -/
def strtokMutF : Nat → List Char → List Char
  | 0, s => s
  | fuel + 1, s =>
    let lead := s.takeWhile (· = '\n')
    let rest := s.dropWhile (· = '\n')
    match rest with
    | [] => s
    | _ :: _ =>
      let tok := rest.takeWhile (· ≠ '\n')
      let after := rest.drop tok.length
      match after with
      | [] => s
      | _ :: tail => lead ++ tok ++ nulC :: strtokMutF fuel tail

/-- The caller's buffer after `api_str2raw` (and hence after
`api_add_train_seq` or `api_label_seq`, which mutate it only through
`api_str2raw`). -/
def strtokMutate (s : List Char) : List Char := strtokMutF s.length s

/-- Declarative counterpart, following the spec's description of the effect:
every newline that terminates an extracted line — that is, every newline
immediately preceded by a non-newline character — is overwritten with a
NUL; `inTok` records whether the previous character was part of a token. -/
def markEnds (inTok : Bool) : List Char → List Char
  | [] => []
  | c :: rest =>
    if c = '\n' then (if inTok then nulC else '\n') :: markEnds false rest
    else c :: markEnds true rest

/-- In-token writes of `api_load_patterns` on one surviving token:
`line[end] = '\0'` then `line[0] = tolower(line[0])` (api.c 197-198); a
skipped token (`end == 0`) is left untouched. -/
def patMutateLine (line : List Char) : List Char :=
  let e := stripIdx line
  if e = 0 then line else lowerFirst (writeAt line e nulC)

/-- Buffer contents after an `api_load_patterns` call that does not abort:
the strtok mutation plus the per-token writes. -/
def patternsMutF : Nat → List Char → List Char
  | 0, s => s
  | fuel + 1, s =>
    let lead := s.takeWhile (· = '\n')
    let rest := s.dropWhile (· = '\n')
    match rest with
    | [] => s
    | _ :: _ =>
      let tok := rest.takeWhile (· ≠ '\n')
      let after := rest.drop tok.length
      match after with
      | [] => lead ++ patMutateLine tok
      | _ :: tail => lead ++ patMutateLine tok ++ nulC :: patternsMutF fuel tail

/-- The caller's buffer after a non-aborting `api_load_patterns`. -/
def patternsMutate (s : List Char) : List Char := patternsMutF s.length s

/-!
## Supporting lemmas

### Registry lookups (the `for`/`strcmp` loops of api.c 100-104 and 240-244)
-/

lemma findIdx_eq_length_of_not_mem {α : Type} [BEq α] [LawfulBEq α]
    (l : List α) (a : α) (h : a ∉ l) : l.findIdx (· == a) = l.length := by
  induction l with
  | nil => rfl
  | cons x xs ih =>
    have hx : (x == a) = false :=
      beq_eq_false_iff_ne.mpr fun he => h (he ▸ List.mem_cons_self x xs)
    simp only [List.findIdx_cons, hx, cond_false, List.length_cons]
    rw [ih fun hm => h (List.mem_cons_of_mem _ hm)]

lemma findIdx_lt_length_of_mem {α : Type} [BEq α] [LawfulBEq α]
    {l : List α} {a : α} (h : a ∈ l) : l.findIdx (· == a) < l.length :=
  List.findIdx_lt_length_of_exists ⟨a, h, beq_iff_eq.mpr rfl⟩

lemma getD_findIdx_beq {α : Type} [BEq α] [LawfulBEq α]
    {l : List α} {a : α} (h : a ∈ l) (d : α) :
    l.getD (l.findIdx (· == a)) d = a := by
  have hlt := findIdx_lt_length_of_mem h
  rw [List.getD_eq_getElem l d hlt]
  exact beq_iff_eq.mp (List.findIdx_getElem (w := hlt))

/-!
### Pattern-loading lemmas
-/

lemma api_load_patterns_frame (pc : List Char → Pat) (m : Mdl) (t : List Char)
    (m' : Mdl) (h : api_load_patterns pc m t = .ok m') :
    m'.typ = m.typ ∧ m'.opt = m.opt ∧ m'.train = m.train ∧ m'.mlen = m.mlen := by
  unfold api_load_patterns at h
  cases hl : loadLines pc m.reader (strtokLines t) with
  | ok r =>
    rw [hl] at h
    injection h with h
    subst h
    exact ⟨rfl, rfl, rfl, rfl⟩
  | error e =>
    obtain ⟨f, r⟩ := e
    rw [hl] at h
    cases h

lemma processLine_skip (pc : List Char → Pat) (rdr : Rdr) (line : List Char)
    (h : stripIdx line = 0) : processLine pc rdr line = .ok rdr := by
  simp [processLine, h]

lemma processLine_eq (pc : List Char → Pat) (rdr : Rdr) (l : List Char)
    (h : stripIdx l ≠ 0) :
    processLine pc rdr l =
      (if (lowerFirst (l.take (stripIdx l))).headD 'a' = 'u' then
        .ok ⟨rdr.npats + 1, rdr.nuni + 1, rdr.nbi,
             max rdr.ntoks (compLine pc l).ntoks, rdr.pats ++ [compLine pc l]⟩
      else if (lowerFirst (l.take (stripIdx l))).headD 'a' = 'b' then
        .ok ⟨rdr.npats + 1, rdr.nuni, rdr.nbi + 1,
             max rdr.ntoks (compLine pc l).ntoks, rdr.pats ++ [compLine pc l]⟩
      else if (lowerFirst (l.take (stripIdx l))).headD 'a' = '*' then
        .ok ⟨rdr.npats + 1, rdr.nuni + 1, rdr.nbi + 1,
             max rdr.ntoks (compLine pc l).ntoks, rdr.pats ++ [compLine pc l]⟩
      else .error (.unknownPatternType ((lowerFirst (l.take (stripIdx l))).headD 'a'),
                   ⟨rdr.npats + 1, rdr.nuni, rdr.nbi, rdr.ntoks, rdr.pats⟩)) := by
  simp only [processLine, compLine]
  rw [if_neg h]

lemma cntSel_cons (c : Char) (l : List Char) (ls : List (List Char)) :
    cntSel c (l :: ls) = (if lineSel l = some c then 1 else 0) + cntSel c ls := by
  by_cases h : lineSel l = some c
  · simp [cntSel, List.filter_cons, h, Nat.add_comm]
  · simp [cntSel, List.filter_cons, h]

lemma compiledOf_cons (pc : List Char → Pat) (l : List Char) (ls : List (List Char)) :
    compiledOf pc (l :: ls) =
      (if stripIdx l ≠ 0 then [compLine pc l] else []) ++ compiledOf pc ls := by
  by_cases h : stripIdx l = 0
  · simp [compiledOf, List.filter_cons, h]
  · simp [compiledOf, List.filter_cons, h]

/-- What a successful `api_load_patterns` loop does to the reader state, in
terms of the per-selector line counts and the compiled patterns. -/
lemma loadLines_ok_spec (pc : List Char → Pat) :
    ∀ (ls : List (List Char)) (rdr rdr' : Rdr),
      loadLines pc rdr ls = .ok rdr' →
      rdr'.npats = rdr.npats + cntSel 'u' ls + cntSel 'b' ls + cntSel '*' ls ∧
      rdr'.nuni = rdr.nuni + cntSel 'u' ls + cntSel '*' ls ∧
      rdr'.nbi = rdr.nbi + cntSel 'b' ls + cntSel '*' ls ∧
      rdr'.pats = rdr.pats ++ compiledOf pc ls ∧
      rdr'.ntoks = (compiledOf pc ls).foldl (fun a p => max a p.ntoks) rdr.ntoks := by
  intro ls
  induction ls with
  | nil =>
    intro rdr rdr' h
    simp only [loadLines] at h
    injection h with h
    subst h
    simp [cntSel, compiledOf]
  | cons l ls ih =>
    intro rdr rdr' h
    obtain ⟨r1, hr1, hrest⟩ :
        ∃ r1, processLine pc rdr l = .ok r1 ∧ loadLines pc r1 ls = .ok rdr' := by
      simp only [loadLines] at h
      cases hp : processLine pc rdr l with
      | ok r => rw [hp] at h; exact ⟨r, rfl, h⟩
      | error e => rw [hp] at h; cases h
    obtain ⟨ih1, ih2, ih3, ih4, ih5⟩ := ih r1 rdr' hrest
    rw [cntSel_cons, cntSel_cons, cntSel_cons, compiledOf_cons]
    by_cases h0 : stripIdx l = 0
    · rw [processLine_skip pc rdr l h0] at hr1
      injection hr1 with hr1
      subst hr1
      have hsel : lineSel l = none := by simp [lineSel, h0]
      have e1 : (if lineSel l = some 'u' then 1 else 0) = 0 := by simp [hsel]
      have e2 : (if lineSel l = some 'b' then 1 else 0) = 0 := by simp [hsel]
      have e3 : (if lineSel l = some '*' then 1 else 0) = 0 := by simp [hsel]
      have e4 : (if stripIdx l ≠ 0 then [compLine pc l] else []) = [] := by
        simp [h0]
      rw [e1, e2, e3, e4]
      exact ⟨by omega, by omega, by omega, by simpa using ih4, by simpa using ih5⟩
    · rw [processLine_eq pc rdr l h0] at hr1
      rw [if_pos h0]
      have hlsel : lineSel l =
          some ((lowerFirst (l.take (stripIdx l))).headD 'a') := by
        simp [lineSel, h0]
      by_cases hu : (lowerFirst (l.take (stripIdx l))).headD 'a' = 'u'
      · rw [if_pos hu] at hr1
        injection hr1 with hr1
        subst hr1
        dsimp only at ih1 ih2 ih3 ih4 ih5
        rw [hu] at hlsel
        have e1 : (if lineSel l = some 'u' then 1 else 0) = 1 := by simp [hlsel]
        have e2 : (if lineSel l = some 'b' then 1 else 0) = 0 := by simp [hlsel]
        have e3 : (if lineSel l = some '*' then 1 else 0) = 0 := by simp [hlsel]
        rw [e1, e2, e3]
        exact ⟨by omega, by omega, by omega, by simp [ih4], by simp [ih5]⟩
      · rw [if_neg hu] at hr1
        by_cases hb : (lowerFirst (l.take (stripIdx l))).headD 'a' = 'b'
        · rw [if_pos hb] at hr1
          injection hr1 with hr1
          subst hr1
          dsimp only at ih1 ih2 ih3 ih4 ih5
          rw [hb] at hlsel
          have e1 : (if lineSel l = some 'u' then 1 else 0) = 0 := by simp [hlsel]
          have e2 : (if lineSel l = some 'b' then 1 else 0) = 1 := by simp [hlsel]
          have e3 : (if lineSel l = some '*' then 1 else 0) = 0 := by simp [hlsel]
          rw [e1, e2, e3]
          exact ⟨by omega, by omega, by omega, by simp [ih4], by simp [ih5]⟩
        · rw [if_neg hb] at hr1
          by_cases hs : (lowerFirst (l.take (stripIdx l))).headD 'a' = '*'
          · rw [if_pos hs] at hr1
            injection hr1 with hr1
            subst hr1
            dsimp only at ih1 ih2 ih3 ih4 ih5
            rw [hs] at hlsel
            have e1 : (if lineSel l = some 'u' then 1 else 0) = 0 := by simp [hlsel]
            have e2 : (if lineSel l = some 'b' then 1 else 0) = 0 := by simp [hlsel]
            have e3 : (if lineSel l = some '*' then 1 else 0) = 1 := by simp [hlsel]
            rw [e1, e2, e3]
            exact ⟨by omega, by omega, by omega, by simp [ih4], by simp [ih5]⟩
          · rw [if_neg hs] at hr1
            cases hr1

/-!
### Comment-stripping lemmas
-/

lemma stripWsIdx_le (l : List Char) : ∀ e, stripWsIdx l e ≤ e := by
  intro e
  induction e with
  | zero => exact Nat.le_refl 0
  | succ m ih =>
    rw [stripWsIdx]
    split
    · exact Nat.le_trans ih (Nat.le_succ m)
    · exact Nat.le_refl _

lemma stripIdx_le_length (l : List Char) : stripIdx l ≤ l.length :=
  Nat.le_trans (stripWsIdx_le l (strcspnHash l))
    (List.Sublist.length_le (List.takeWhile_sublist _))

lemma stripComment_length (l : List Char) :
    (stripComment l).length = stripIdx l := by
  rw [stripComment, List.length_take, Nat.min_eq_left (stripIdx_le_length l)]

lemma getD_take_of_lt (l : List Char) (n i : Nat) (d : Char) (h : i < n) :
    (l.take n).getD i d = l.getD i d := by
  rw [List.getD_eq_getElem?_getD, List.getD_eq_getElem?_getD,
    List.getElem?_take, if_pos h]

lemma stripWsIdx_pos_not_space (l : List Char) :
    ∀ k m, stripWsIdx l k = m + 1 → isspaceC (l.getD m 'a') = false := by
  intro k
  induction k with
  | zero => intro m h; cases h
  | succ e ih =>
    intro m h
    rw [stripWsIdx] at h
    by_cases hsp : isspaceC (l.getD e 'a')
    · rw [if_pos hsp] at h
      exact ih m h
    · rw [if_neg hsp] at h
      injection h with h
      rw [← h]
      exact Bool.not_eq_true _ ▸ (by simpa using hsp)

lemma stripComment_no_hash (l : List Char) :
    ∀ x ∈ stripComment l, x ≠ '#' := by
  intro x hx
  have key : ∀ k, k ≤ strcspnHash l →
      l.take k = (l.takeWhile (· ≠ '#')).take k := by
    intro k hk
    conv_lhs => rw [← List.takeWhile_append_dropWhile (p := (· ≠ '#')) (l := l)]
    exact List.take_append_of_le_length hk
  have hsub : l.take (stripIdx l) = (l.takeWhile (· ≠ '#')).take (stripIdx l) :=
    key (stripIdx l) (stripWsIdx_le l (strcspnHash l))
  rw [stripComment, hsub] at hx
  have hmem : x ∈ l.takeWhile (· ≠ '#') := (List.take_sublist _ _).subset hx
  simpa using List.mem_takeWhile_imp hmem

lemma stripIdx_stripComment (l : List Char) :
    stripIdx (stripComment l) = (stripComment l).length := by
  have hcs : strcspnHash (stripComment l) = (stripComment l).length := by
    have hself : (stripComment l).takeWhile (· ≠ '#') = stripComment l :=
      List.takeWhile_eq_self_iff.mpr
        (fun x hx => by simpa using stripComment_no_hash l x hx)
    rw [strcspnHash, hself]
  rw [stripIdx, hcs]
  cases he0 : stripIdx l with
  | zero =>
    have : (stripComment l).length = 0 := by rw [stripComment_length, he0]
    rw [this]
    rfl
  | succ m =>
    have hnotsp : isspaceC (l.getD m 'a') = false :=
      stripWsIdx_pos_not_space l (strcspnHash l) m (by rw [← stripIdx, he0])
    have hgd : (stripComment l).getD m 'a' = l.getD m 'a' := by
      rw [stripComment, he0]
      exact getD_take_of_lt l (m + 1) m 'a' (Nat.lt_succ_self m)
    rw [stripComment_length, he0, stripWsIdx, hgd, hnotsp]
    rfl

lemma processLine_stripComment (pc : List Char → Pat) (rdr : Rdr)
    (l : List Char) :
    processLine pc rdr l = processLine pc rdr (stripComment l) := by
  by_cases h0 : stripIdx l = 0
  · have hnil : stripComment l = [] := by
      rw [stripComment, h0, List.take_zero]
    rw [processLine_skip pc rdr l h0,
      processLine_skip pc rdr (stripComment l) (by rw [hnil]; rfl)]
  · have hfix : stripIdx (stripComment l) = (stripComment l).length :=
      stripIdx_stripComment l
    have h0' : stripIdx (stripComment l) ≠ 0 := by
      rw [hfix, stripComment_length]
      exact h0
    rw [processLine_eq pc rdr l h0, processLine_eq pc rdr _ h0']
    have htk : (stripComment l).take (stripIdx (stripComment l)) =
        stripComment l := by
      rw [hfix, List.take_length]
    simp only [compLine]
    rw [htk]
    rfl

/-!
### Tagging-pipeline lemmas
-/

lemma fmtRow_length (line lbl : List Char) :
    (fmtRow line lbl).length = line.length + lbl.length + 2 := by
  simp [fmtRow]
  omega

/-- One iteration of the output loop appends the full formatted row: the
capacity check and growth at api.c 166-169 guarantee the row fits, so the
bounded `snprintf` stores it without truncation. -/
lemma labelStep_spec (T t : Nat) (st : LoopSt) (line lbl : List Char)
    (h1 : st.pos ≤ st.outsize) (h2 : t < T) :
    (labelStep T t st line lbl).buf = st.buf ++ fmtRow line lbl ∧
    (labelStep T t st line lbl).pos = st.pos + (fmtRow line lbl).length ∧
    (labelStep T t st line lbl).pos ≤ (labelStep T t st line lbl).outsize := by
  have hfl := fmtRow_length line lbl
  simp only [labelStep]
  set os' := if st.pos + (line.length + lbl.length + 3) > st.outsize
    then st.outsize + (line.length + lbl.length + 3) * (T - t)
    else st.outsize with hout
  have hfit : st.pos + (line.length + lbl.length + 3) ≤ os' := by
    rw [hout]
    split_ifs with hgrow
    · have hmul := Nat.le_mul_of_pos_right (line.length + lbl.length + 3)
        (show 0 < T - t by omega)
      omega
    · omega
  refine ⟨?_, trivial, by omega⟩
  rw [Nat.min_eq_left (by omega), List.take_length]

/-- The whole output loop writes exactly the concatenation of the formatted
rows, provided the initial position fits the capacity and the row counter
bound holds. -/
lemma labelLoop_spec (T : Nat) :
    ∀ (rows : List (List Char × List Char)) (t : Nat) (st : LoopSt),
      st.pos ≤ st.outsize → t + rows.length ≤ T →
      (labelLoop T t rows st).buf =
        st.buf ++ (rows.map (fun r => fmtRow r.1 r.2)).flatten ∧
      (labelLoop T t rows st).pos =
        st.pos + ((rows.map (fun r => fmtRow r.1 r.2)).map List.length).sum ∧
      (labelLoop T t rows st).pos ≤ (labelLoop T t rows st).outsize := by
  intro rows
  induction rows with
  | nil =>
    intro t st h1 h2
    simp [labelLoop, h1]
  | cons r rs ih =>
    intro t st h1 h2
    have h2' : t < T := by
      rw [List.length_cons] at h2
      omega
    obtain ⟨hb, hp, hle⟩ := labelStep_spec T t st r.1 r.2 h1 h2'
    have h2'' : (t + 1) + rs.length ≤ T := by
      rw [List.length_cons] at h2
      omega
    obtain ⟨ihb, ihp, ihle⟩ := ih (t + 1) (labelStep T t st r.1 r.2) hle h2''
    rw [labelLoop]
    refine ⟨?_, ?_, ihle⟩
    · rw [ihb, hb, List.map_cons, List.flatten_cons, List.append_assoc]
    · rw [ihp, hp, List.map_cons, List.map_cons, List.sum_cons]
      omega

/-- A strtok token contains no newline. -/
lemma strtokGo_no_newline :
    ∀ (s acc : List Char), (∀ c ∈ acc, c ≠ '\n') →
      ∀ tok ∈ strtokGo acc s, ∀ c ∈ tok, c ≠ '\n' := by
  intro s
  induction s with
  | nil =>
    intro acc hacc tok htok
    rw [strtokGo] at htok
    split at htok
    · cases htok
    · rw [List.mem_singleton] at htok
      subst htok
      intro c hc
      exact hacc c (List.mem_reverse.mp hc)
  | cons c0 rest ih =>
    intro acc hacc tok htok
    rw [strtokGo] at htok
    by_cases hc0 : c0 = '\n'
    · rw [if_pos hc0] at htok
      by_cases hemp : acc.isEmpty
      · rw [if_pos hemp] at htok
        exact ih [] (by simp) tok htok
      · rw [if_neg hemp] at htok
        rcases List.mem_cons.mp htok with h | h
        · subst h
          intro c hc
          exact hacc c (List.mem_reverse.mp hc)
        · exact ih [] (by simp) tok h
    · rw [if_neg hc0] at htok
      refine ih (c0 :: acc) ?_ tok htok
      intro c hc
      rcases List.mem_cons.mp hc with h | h
      · rw [h]
        exact hc0
      · exact hacc c h

lemma strtokLines_no_newline (s : List Char) :
    ∀ tok ∈ strtokLines s, ∀ c ∈ tok, c ≠ '\n' :=
  strtokGo_no_newline s [] (by simp)

lemma sum_map_one {α : Type} (l : List α) :
    (l.map (fun _ => (1 : Nat))).sum = l.length := by
  induction l with
  | nil => rfl
  | cons x xs ih => simp [ih, Nat.add_comm]

/-!
### Buffer-mutation lemmas
-/

lemma markEnds_all_newlines (l : List Char) (h : ∀ c ∈ l, c = '\n') :
    markEnds false l = l := by
  induction l with
  | nil => rfl
  | cons c cs ih =>
    have hc : c = '\n' := h c (List.mem_cons_self c cs)
    rw [markEnds, if_pos hc, hc, ih fun x hx => h x (List.mem_cons_of_mem c hx)]
    rfl

lemma markEnds_append_newlines (r : List Char) :
    ∀ lead, (∀ c ∈ lead, c = '\n') →
      markEnds false (lead ++ r) = lead ++ markEnds false r := by
  intro lead
  induction lead with
  | nil => intro _; rfl
  | cons c cs ih =>
    intro h
    have hc : c = '\n' := h c (List.mem_cons_self c cs)
    rw [List.cons_append, markEnds, if_pos hc,
      ih fun x hx => h x (List.mem_cons_of_mem c hx), hc, List.cons_append]
    rfl

lemma markEnds_no_newline (tok : List Char) (h : ∀ c ∈ tok, c ≠ '\n') :
    ∀ b, markEnds b tok = tok := by
  induction tok with
  | nil => intro _; rfl
  | cons c cs ih =>
    intro b
    rw [markEnds, if_neg (h c (List.mem_cons_self c cs)),
      ih fun x hx => h x (List.mem_cons_of_mem c hx)]

lemma markEnds_token (tail : List Char) :
    ∀ (tok : List Char) (b : Bool), tok ≠ [] → (∀ c ∈ tok, c ≠ '\n') →
      markEnds b (tok ++ '\n' :: tail) = tok ++ nulC :: markEnds false tail := by
  intro tok
  induction tok with
  | nil => intro b hne _; exact absurd rfl hne
  | cons c cs ih =>
    intro b hne h
    have hc : c ≠ '\n' := h c (List.mem_cons_self c cs)
    rw [List.cons_append, markEnds, if_neg hc]
    by_cases hcs : cs = []
    · subst hcs
      rw [List.nil_append, markEnds, if_pos rfl, List.cons_append,
        List.nil_append]
      rfl
    · rw [ih true hcs fun x hx => h x (List.mem_cons_of_mem c hx),
        List.cons_append]

lemma dropWhile_head_not (p : Char → Bool) :
    ∀ (l : List Char) (c : Char) (cs : List Char),
      l.dropWhile p = c :: cs → p c = false := by
  intro l
  induction l with
  | nil => intro c cs h; cases h
  | cons x xs ih =>
    intro c cs h
    by_cases hp : p x
    · rw [List.dropWhile_cons, if_pos hp] at h
      exact ih c cs h
    · rw [List.dropWhile_cons, if_neg hp] at h
      injection h with h1 _
      rw [← h1]
      simpa using hp

lemma drop_length_takeWhile (p : Char → Bool) :
    ∀ l : List Char, l.drop (l.takeWhile p).length = l.dropWhile p := by
  intro l
  induction l with
  | nil => rfl
  | cons x xs ih =>
    by_cases hp : p x
    · rw [List.takeWhile_cons, if_pos hp, List.length_cons, List.drop_succ_cons,
        List.dropWhile_cons, if_pos hp, ih]
    · rw [List.takeWhile_cons, if_neg hp, List.length_nil, List.drop_zero,
        List.dropWhile_cons, if_neg hp]

/-- The token-at-a-time `strtok` mutation model agrees with the declarative
description: exactly the newlines that terminate a token (those immediately
preceded by a non-newline character) are overwritten with NUL. -/
lemma strtokMutF_markEnds :
    ∀ (fuel : Nat) (s : List Char), s.length ≤ fuel →
      strtokMutF fuel s = markEnds false s := by
  intro fuel
  induction fuel with
  | zero =>
    intro s h
    have hs : s = [] := List.eq_nil_of_length_eq_zero (Nat.le_zero.mp h)
    subst hs
    rfl
  | succ n ih =>
    intro s hs
    simp only [strtokMutF]
    have hsplit : s.takeWhile (· = '\n') ++ s.dropWhile (· = '\n') = s :=
      List.takeWhile_append_dropWhile _ _
    have hleadnl : ∀ c ∈ s.takeWhile (· = '\n'), c = '\n' :=
      fun c hc => by simpa using List.mem_takeWhile_imp hc
    split
    · next heq =>
      have hse : s = s.takeWhile (· = '\n') := by
        rw [heq, List.append_nil] at hsplit
        exact hsplit.symm
      have hall : ∀ c ∈ s, c = '\n' := by
        intro c hc
        apply hleadnl
        rw [← hse]
        exact hc
      exact (markEnds_all_newlines s hall).symm
    · next c cs heq =>
      have hc_ne : c ≠ '\n' := by
        have := dropWhile_head_not (· = '\n') s c cs heq
        simpa using this
      have htok_nonl : ∀ x ∈ (s.dropWhile (· = '\n')).takeWhile (· ≠ '\n'),
          x ≠ '\n' := fun x hx => by simpa using List.mem_takeWhile_imp hx
      have htok_ne : (s.dropWhile (· = '\n')).takeWhile (· ≠ '\n') ≠ [] := by
        rw [heq, List.takeWhile_cons, if_pos (by simpa using hc_ne)]
        exact List.cons_ne_nil _ _
      have hdw : (s.dropWhile (· = '\n')).drop
            ((s.dropWhile (· = '\n')).takeWhile (· ≠ '\n')).length =
          (s.dropWhile (· = '\n')).dropWhile (· ≠ '\n') :=
        drop_length_takeWhile (· ≠ '\n') _
      have hrest_split : (s.dropWhile (· = '\n')).takeWhile (· ≠ '\n') ++
          (s.dropWhile (· = '\n')).dropWhile (· ≠ '\n') =
          s.dropWhile (· = '\n') := List.takeWhile_append_dropWhile _ _
      split
      · next heq2 =>
        rw [hdw] at heq2
        rw [heq2, List.append_nil] at hrest_split
        have hse : s = s.takeWhile (· = '\n') ++
            (s.dropWhile (· = '\n')).takeWhile (· ≠ '\n') := by
          rw [hrest_split]
          exact hsplit.symm
        have hme : markEnds false (s.takeWhile (· = '\n') ++
            (s.dropWhile (· = '\n')).takeWhile (· ≠ '\n')) =
            s.takeWhile (· = '\n') ++
              (s.dropWhile (· = '\n')).takeWhile (· ≠ '\n') := by
          rw [markEnds_append_newlines _ _ hleadnl,
            markEnds_no_newline _ htok_nonl false]
        conv_rhs => rw [hse]
        rw [hme]
        exact hse
      · next a tail heq2 =>
        rw [hdw] at heq2
        have ha : a = '\n' := by
          have := dropWhile_head_not (· ≠ '\n') _ a tail heq2
          simpa using this
        rw [heq2, ha] at hrest_split
        have hse : s = s.takeWhile (· = '\n') ++
            ((s.dropWhile (· = '\n')).takeWhile (· ≠ '\n') ++ '\n' :: tail) := by
          rw [hrest_split]
          exact hsplit.symm
        have htail_len : tail.length ≤ n := by
          have h1 := congrArg List.length hse
          rw [List.length_append, List.length_append, List.length_cons] at h1
          omega
        rw [ih tail htail_len]
        conv_rhs => rw [hse]
        rw [markEnds_append_newlines _ _ hleadnl,
          markEnds_token tail _ false htok_ne htok_nonl, List.append_assoc]

/-!
## Concrete sample values used by the claim witnesses
-/

/-- A concrete pattern compiler: the span is the compiled string's length. -/
def pcW : List Char → Pat := fun s => ⟨s.length, s⟩

/-- A concrete valid configuration. -/
def optW : Opt := ⟨toChars "crf", toChars "auto", 30, false, false⟩

/-- The model `api_new_model pcW optW none` constructs. -/
def mdlW : Mdl := ⟨2, rdr_new, optW, [], 0⟩

/-- The three-line pattern text of the spec's concrete counting example. -/
def patsExample : List Char := toChars "u:A:...\nb:B:...\n*:C:..."

/-- A concrete file name for the load-model witness. -/
def fnameW : List Char := toChars "model.bin"

/-- A file name so long that the rendered open-failure message leaves no room
for the appended OS error description. -/
def fnameLong : List Char := List.replicate 1366 'a'

/-- A 50-character label string, far longer than the 5-bytes-per-line
initial output-capacity estimate. -/
def lbl50 : List Char :=
  toChars "ABCDEFGHIJKLMNOPQRSTUVWXYZabcdefghijklmnopqrstuvwx"

/-- A concrete sgd-l1 stand-in that reads the iteration budget and even
clobbers it, exercising the restoration. -/
def sgdW : TrnState Nat → TrnState Nat := fun s => ⟨0, s.params + s.maxiter.natAbs⟩

/-- A concrete l-bfgs stand-in that preserves the iteration budget. -/
def lbfgsW : TrnState Nat → TrnState Nat := fun s => ⟨s.maxiter, s.params * 2⟩

/-!
## The claims
-/

/-- Claim C7: every pattern line is truncated at the first `'#'` and then
stripped of trailing whitespace; a line empty after this step is skipped with
no error and no pattern; processing any line is the same as processing its
stripped form, so `"u00:%x[0,0] # note"` compiles to the same pattern as
`"u00:%x[0,0]"`, and `"   # only a comment"` strips to the empty line. -/
theorem claim_C7 :
    (∀ (pc : List Char → Pat) (rdr : Rdr) (line : List Char),
      stripIdx line = 0 → processLine pc rdr line = .ok rdr) ∧
    (∀ (pc : List Char → Pat) (rdr : Rdr) (line : List Char),
      processLine pc rdr line = processLine pc rdr (stripComment line)) ∧
    (∀ (pc : List Char → Pat) (rdr : Rdr),
      processLine pc rdr (toChars "u00:%x[0,0] # note") =
        processLine pc rdr (toChars "u00:%x[0,0]")) ∧
    stripComment (toChars "   # only a comment") = [] := by
  refine ⟨processLine_skip, processLine_stripComment, ?_, by decide⟩
  intro pc rdr
  rw [processLine_stripComment pc rdr (toChars "u00:%x[0,0] # note"),
    show stripComment (toChars "u00:%x[0,0] # note") = toChars "u00:%x[0,0]"
      from by decide]

/-- Witness for claim C7's hypothesis: a pure-comment line is skipped with
state unchanged. -/
theorem claim_C7_witness :
    processLine pcW rdr_new (toChars "   # only a comment") = .ok rdr_new :=
  claim_C7.1 pcW rdr_new (toChars "   # only a comment") (by decide)

/-- Claim C2: for every pattern text, a completed `api_load_patterns` on a
fresh model leaves `total_count = unigram_count + bigram_count - both_count`
(where `both_count` counts the non-skipped lines whose selector is `'*'`)
and leaves the maximum token span equal to the maximum of the spans of all
loaded patterns; concretely, loading `"u:A:...\nb:B:...\n*:C:..."` yields
unigram 2, bigram 2, total 3. -/
theorem claim_C2 :
    (∀ (pc : List Char → Pat) (text : List Char) (mdl mdl' : Mdl),
      mdl.reader = rdr_new →
      api_load_patterns pc mdl text = .ok mdl' →
      mdl'.reader.npats = mdl'.reader.nuni + mdl'.reader.nbi - bothCount text ∧
      mdl'.reader.ntoks = (mdl'.reader.pats.map Pat.ntoks).foldl max 0) ∧
    (api_load_patterns pcW mdlW patsExample).map
        (fun m => (m.reader.nuni, m.reader.nbi, m.reader.npats)) = .ok (2, 2, 3) := by
  constructor
  · intro pc text mdl mdl' hfresh h
    unfold api_load_patterns at h
    cases hl : loadLines pc mdl.reader (strtokLines text) with
    | ok r =>
      rw [hl] at h
      injection h with h
      subst h
      rw [hfresh] at hl
      obtain ⟨h1, h2, h3, h4, h5⟩ := loadLines_ok_spec pc (strtokLines text) rdr_new r hl
      simp only [rdr_new] at h1 h2 h3 h4 h5
      constructor
      · show r.npats = r.nuni + r.nbi - bothCount text
        rw [h1, h2, h3]
        unfold bothCount
        omega
      · show r.ntoks = (r.pats.map Pat.ntoks).foldl max 0
        rw [h5, h4, List.nil_append, List.foldl_map]
    | error e =>
      obtain ⟨f, r⟩ := e
      rw [hl] at h
      cases h
  · decide

/-- Witness for claim C2's hypotheses: the fresh model `mdlW` and the
concrete example text. -/
theorem claim_C2_witness :
    mdlW.reader = rdr_new ∧
    api_load_patterns pcW mdlW patsExample =
      .ok { mdlW with reader :=
        ⟨3, 2, 2, 7, [⟨7, toChars "u:A:..."⟩, ⟨7, toChars "b:B:..."⟩,
                      ⟨7, toChars "*:C:..."⟩]⟩ } ∧
    ({ mdlW with reader :=
        ⟨3, 2, 2, 7, [⟨7, toChars "u:A:..."⟩, ⟨7, toChars "b:B:..."⟩,
                      ⟨7, toChars "*:C:..."⟩]⟩ } : Mdl).reader.npats =
      ({ mdlW with reader :=
        ⟨3, 2, 2, 7, [⟨7, toChars "u:A:..."⟩, ⟨7, toChars "b:B:..."⟩,
                      ⟨7, toChars "*:C:..."⟩]⟩ } : Mdl).reader.nuni +
      ({ mdlW with reader :=
        ⟨3, 2, 2, 7, [⟨7, toChars "u:A:..."⟩, ⟨7, toChars "b:B:..."⟩,
                      ⟨7, toChars "*:C:..."⟩]⟩ } : Mdl).reader.nbi -
      bothCount patsExample :=
  ⟨by decide, by decide,
   (claim_C2.1 pcW patsExample mdlW _ (by decide) (by decide)).1⟩

/-- Claim C1: with one decoded label string per line, `api_label_seq`
returns exactly the concatenation, in original line order, of
`<line><TAB><label><NEWLINE>` rows; its length is the sum of the per-line
formatted lengths and it has exactly one newline per line (so exactly T
output lines), with no truncation however long the labels are, because the
buffer is grown before any append that would not fit. -/
theorem claim_C1 (labels : List (List Char)) (lines : List Char)
    (hlen : labels.length = (api_str2raw lines).length)
    (hnl : ∀ b ∈ labels, '\n' ∉ b) :
    api_label_seq labels lines =
      (((api_str2raw lines).zip labels).map (fun r => fmtRow r.1 r.2)).flatten ∧
    (api_label_seq labels lines).length =
      (((api_str2raw lines).zip labels).map
        (fun r => r.1.length + r.2.length + 2)).sum ∧
    (api_label_seq labels lines).count '\n' = (api_str2raw lines).length := by
  set raw := api_str2raw lines with hraw
  have hziplen : (raw.zip labels).length = raw.length := by
    rw [List.length_zip, hlen, Nat.min_self]
  obtain ⟨hb, -, -⟩ := labelLoop_spec raw.length (raw.zip labels) 0
      ⟨lines.length + 5 * raw.length, 0, []⟩ (Nat.zero_le _)
      (by rw [Nat.zero_add, hziplen])
  have hout : api_label_seq labels lines =
      (labelLoop raw.length 0 (raw.zip labels)
        ⟨lines.length + 5 * raw.length, 0, []⟩).buf := rfl
  rw [hout, hb, List.nil_append]
  refine ⟨rfl, ?_, ?_⟩
  · rw [List.length_flatten, List.map_map]
    apply congrArg List.sum
    apply List.map_congr_left
    intro r hr
    simpa using fmtRow_length r.1 r.2
  · rw [List.count_flatten, List.map_map]
    have hone : ∀ r ∈ raw.zip labels,
        (List.count '\n' ∘ fun r => fmtRow r.1 r.2) r = 1 := by
      intro r hr
      obtain ⟨h1, h2⟩ := List.of_mem_zip hr
      have hl1 : '\n' ∉ r.1 :=
        fun hc => strtokLines_no_newline lines r.1 h1 '\n' hc rfl
      have hl2 : '\n' ∉ r.2 := hnl r.2 h2
      simp [Function.comp, fmtRow, List.count_append, List.count_cons,
        List.count_eq_zero.mpr hl1, List.count_eq_zero.mpr hl2]
    rw [List.map_congr_left hone, sum_map_one, hziplen]

/-- Witness for claim C1's hypotheses: a one-line input tagged with a 50
character label, far beyond the 5-bytes-per-line initial estimate. -/
theorem claim_C1_witness :
    ([lbl50].length = (api_str2raw (toChars "a")).length) ∧
    (api_label_seq [lbl50] (toChars "a") =
      (((api_str2raw (toChars "a")).zip [lbl50]).map
        (fun r => fmtRow r.1 r.2)).flatten ∧
    (api_label_seq [lbl50] (toChars "a")).length =
      (((api_str2raw (toChars "a")).zip [lbl50]).map
        (fun r => r.1.length + r.2.length + 2)).sum ∧
    (api_label_seq [lbl50] (toChars "a")).count '\n' =
      (api_str2raw (toChars "a")).length) :=
  ⟨by decide, claim_C1 [lbl50] (toChars "a") (by decide) (by decide)⟩

/-- Claim C3: `trn_auto` saves the configured maximum-iteration count, forces
3, runs sgd-l1, restores the saved count, then runs l-bfgs — so, provided
the external l-bfgs routine does not itself write the field, `maxiter` after
the call equals its value before, and the parameter state is l-bfgs (under
the restored budget) applied after sgd-l1 (under budget 3). -/
theorem claim_C3 (Θ : Type) (trn_sgdl1 trn_lbfgs : TrnState Θ → TrnState Θ)
    (hl : ∀ s, (trn_lbfgs s).maxiter = s.maxiter) (st : TrnState Θ) :
    (trn_auto trn_sgdl1 trn_lbfgs st).maxiter = st.maxiter ∧
    trn_auto trn_sgdl1 trn_lbfgs st =
      trn_lbfgs ⟨st.maxiter, (trn_sgdl1 ⟨3, st.params⟩).params⟩ := by
  constructor
  · show (trn_lbfgs ⟨st.maxiter, (trn_sgdl1 ⟨3, st.params⟩).params⟩).maxiter
        = st.maxiter
    rw [hl]
  · rfl

/-- Witness for claim C3's hypothesis, with a maxiter-preserving l-bfgs
stand-in and an sgd-l1 stand-in that clobbers the field. -/
theorem claim_C3_witness :
    (trn_auto sgdW lbfgsW ⟨30, 7⟩).maxiter = 30 ∧
    trn_auto sgdW lbfgsW ⟨30, 7⟩ = lbfgsW ⟨30, (sgdW ⟨3, 7⟩).params⟩ :=
  claim_C3 Nat sgdW lbfgsW (fun _ => rfl) ⟨30, 7⟩

/-- Claim C4: a non-skipped pattern line whose selector is not `'u'`, `'b'`
or `'*'` makes `processLine` signal the fatal "unknown pattern type"
condition; the aborted state has the same pattern list and the same unigram
and bigram counts as before the line, and the fatal line aborts the whole
`loadLines` call, so the remaining lines are not processed. -/
theorem claim_C4 (pc : List Char → Pat) (rdr : Rdr) (line : List Char) :
    (∀ sel : Char, sel = (lowerFirst (line.take (stripIdx line))).headD 'a' →
      stripIdx line ≠ 0 → sel ≠ 'u' → sel ≠ 'b' → sel ≠ '*' →
      ∃ rdr1, processLine pc rdr line = .error (.unknownPatternType sel, rdr1) ∧
        rdr1.pats = rdr.pats ∧ rdr1.nuni = rdr.nuni ∧ rdr1.nbi = rdr.nbi) ∧
    (∀ (ls : List (List Char)) (e : ApiFatal × Rdr),
      processLine pc rdr line = .error e →
      loadLines pc rdr (line :: ls) = .error e) := by
  constructor
  · intro sel hsel h0 hu hb hs
    refine ⟨⟨rdr.npats + 1, rdr.nuni, rdr.nbi, rdr.ntoks, rdr.pats⟩, ?_, rfl, rfl, rfl⟩
    rw [processLine_eq pc rdr line h0, ← hsel, if_neg hu, if_neg hb, if_neg hs]
  · intro ls e h
    simp [loadLines, h]

/-- Witness for claim C4's hypotheses: the line `"x:oops"` with selector
`'x'`. -/
theorem claim_C4_witness :
    (∃ rdr1, processLine pcW rdr_new (toChars "x:oops") =
        .error (.unknownPatternType 'x', rdr1) ∧
      rdr1.pats = rdr_new.pats ∧ rdr1.nuni = rdr_new.nuni ∧
      rdr1.nbi = rdr_new.nbi) ∧
    loadLines pcW rdr_new [toChars "x:oops", toChars "u:ok"] =
      .error (.unknownPatternType 'x', ⟨1, 0, 0, 0, []⟩) :=
  ⟨(claim_C4 pcW rdr_new (toChars "x:oops")).1 'x' (by decide) (by decide)
      (by decide) (by decide) (by decide),
   (claim_C4 pcW rdr_new (toChars "x:oops")).2 [toChars "u:ok"] _ (by decide)⟩

/-- Claim C5: a configuration whose model-type name is outside
{maxent, memm, crf} makes `api_new_model` fatal with no pattern or corpus
state; every successfully constructed model carries a type tag that indexes a
registry entry equal to the configured name, starts with an empty corpus, and
the tag is preserved by the subsequent mutating operations. -/
theorem claim_C5 (pc : List Char → Pat) (options : Opt)
    (patterns : Option (List Char)) :
    (options.typ ∉ typ_lst →
      api_new_model pc options patterns =
        .error (.unknownModelType options.typ,
                ⟨0, rdr_new, options, [], 0⟩)) ∧
    (∀ mdl, api_new_model pc options patterns = .ok mdl →
      mdl.typ < typ_lst.length ∧ typ_lst.getD mdl.typ [] = options.typ ∧
      mdl.train = [] ∧ mdl.mlen = 0 ∧
      (∀ (pc2 : List Char → Pat) (text : List Char) (mdl2 : Mdl),
        api_load_patterns pc2 mdl text = .ok mdl2 → mdl2.typ = mdl.typ) ∧
      (∀ (r2s : List (List Char) → Nat) (text : List Char),
        (api_add_train_seq r2s mdl text).typ = mdl.typ)) := by
  constructor
  · intro h
    unfold api_new_model
    rw [if_pos (findIdx_eq_length_of_not_mem typ_lst options.typ h)]
  · intro mdl h
    unfold api_new_model at h
    by_cases hfind : typ_lst.findIdx (· == options.typ) = typ_lst.length
    · rw [if_pos hfind] at h
      cases h
    · rw [if_neg hfind] at h
      have hlt : typ_lst.findIdx (· == options.typ) < typ_lst.length :=
        lt_of_le_of_ne (List.findIdx_le_length (· == options.typ)) hfind
      have hget : typ_lst.getD (typ_lst.findIdx (· == options.typ)) [] =
          options.typ := by
        rw [List.getD_eq_getElem typ_lst [] hlt]
        exact beq_iff_eq.mp (List.findIdx_getElem (w := hlt))
      have hfacts : mdl.typ = typ_lst.findIdx (· == options.typ) ∧
          mdl.train = [] ∧ mdl.mlen = 0 := by
        cases hpat : patterns with
        | none =>
          rw [hpat] at h
          injection h with h
          rw [← h]
          exact ⟨rfl, rfl, rfl⟩
        | some p =>
          rw [hpat] at h
          obtain ⟨hf1, -, hf3, hf4⟩ := api_load_patterns_frame pc _ p mdl h
          exact ⟨hf1, hf3, hf4⟩
      obtain ⟨hm, ht, hl⟩ := hfacts
      refine ⟨by rw [hm]; exact hlt, by rw [hm]; exact hget, ht, hl, ?_, ?_⟩
      · intro pc2 text mdl2 h2
        exact (api_load_patterns_frame pc2 mdl text mdl2 h2).1
      · intro r2s text
        rfl

/-- Witness for claim C5's hypotheses, at a bogus and at a valid
configuration. -/
theorem claim_C5_witness :
    api_new_model pcW { optW with typ := toChars "bogus" } none =
      .error (.unknownModelType (toChars "bogus"),
              ⟨0, rdr_new, { optW with typ := toChars "bogus" }, [], 0⟩) ∧
    (mdlW.typ < typ_lst.length ∧ typ_lst.getD mdlW.typ [] = optW.typ ∧
      mdlW.train = [] ∧ mdlW.mlen = 0 ∧
      (∀ (pc2 : List Char → Pat) (text : List Char) (mdl2 : Mdl),
        api_load_patterns pc2 mdlW text = .ok mdl2 → mdl2.typ = mdlW.typ) ∧
      (∀ (r2s : List (List Char) → Nat) (text : List Char),
        (api_add_train_seq r2s mdlW text).typ = mdlW.typ)) :=
  ⟨(claim_C5 pcW { optW with typ := toChars "bogus" } none).1 (by decide),
   (claim_C5 pcW optW none).2 mdlW (by decide)⟩

/-- Claim C10 (amended): the caller's buffer is destructively tokenized, not
restored — after `api_str2raw` (so after `api_add_train_seq` or
`api_label_seq`) every newline that terminates an extracted line, i.e. every
newline immediately preceded by a non-newline character, is overwritten with
NUL; `api_load_patterns` additionally NUL-terminates each surviving line at
its truncation point and lowercases its first character (shown on a concrete
two-line text); a text in which no such write changes a byte — e.g. one
newline-free, comment-free, already-lowercase line — is left unchanged. -/
theorem claim_C10 :
    (∀ s : List Char, strtokMutate s = markEnds false s) ∧
    patternsMutate (toChars "U00:%x[0,0] # note\nb01:%y") =
      toChars "u00:%x[0,0]" ++ nulC :: (toChars "# note" ++ nulC :: toChars "b01:%y") :=
  ⟨fun s => strtokMutF_markEnds s.length s (Nat.le_refl _), by decide⟩

/-- Counterexample to claim C10 as stated: on a text with no newline, no
comment, no trailing whitespace and a lowercase selector, neither the strtok
pass nor the pattern loader changes a single byte — the buffer is not
mutated. -/
theorem claim_C10_counterexample :
    strtokMutate (toChars "abc") = toChars "abc" ∧
    patternsMutate (toChars "u:a") = toChars "u:a" := by
  exact ⟨by decide, by decide⟩

/-- Claim C8 (amended): when the model file cannot be opened,
`api_load_model` dispatches the fatal-with-system-error message; the OS error
description is appended in angle brackets after the rendered message whenever
the rendered message plus the bracketed description fit the 1400-character
bound (otherwise the appended description is truncated); on success the
deserialization is delegated to the external persistence loader. -/
theorem claim_C8 {F : Type} (fopenF : List Char → Option F)
    (mdl_load : Mdl → F → Mdl) (errnoStr : List Char) (pc : List Char → Pat)
    (filename : List Char) (options : Opt) (mdl : Mdl)
    (hnew : api_new_model pc options none = .ok mdl) :
    (fopenF filename = none →
      api_load_model fopenF mdl_load errnoStr pc filename options =
        .error (wrap_pfatal true (cannotOpenMsg filename) errnoStr)) ∧
    ((cannotOpenMsg filename).length + errnoStr.length + 4 ≤ MAXLOGMSG →
      wrap_pfatal true (cannotOpenMsg filename) errnoStr =
        cannotOpenMsg filename ++ (toChars " <" ++ errnoStr ++ toChars ">")) ∧
    (∀ f, fopenF filename = some f →
      api_load_model fopenF mdl_load errnoStr pc filename options =
        .ok (mdl_load mdl f)) := by
  refine ⟨?_, ?_, ?_⟩
  · intro hopen
    simp only [api_load_model, hnew, hopen]
  · intro hbound
    rw [show MAXLOGMSG = 1400 from rfl] at hbound
    have hflen : (cannotOpenMsg filename).length ≤ MAXLOGMSG - 1 := by
      rw [show MAXLOGMSG = 1400 from rfl]
      omega
    have hmsg : vsnprintfBounded (cannotOpenMsg filename) =
        cannotOpenMsg filename := by
      rw [vsnprintfBounded]
      exact List.take_of_length_le hflen
    have hstep : wrap_pfatal true (cannotOpenMsg filename) errnoStr =
        vsnprintfBounded (cannotOpenMsg filename) ++
          (toChars " <" ++ errnoStr ++ toChars ">").take
            (MAXLOGMSG - (vsnprintfBounded (cannotOpenMsg filename)).length - 1) :=
      rfl
    rw [hstep, hmsg]
    have hsuf : (toChars " <" ++ errnoStr ++ toChars ">").length =
        errnoStr.length + 3 := by
      rw [List.length_append, List.length_append,
        show (toChars " <").length = 2 from rfl,
        show (toChars ">").length = 1 from rfl]
      omega
    rw [List.take_of_length_le (by rw [hsuf, show MAXLOGMSG = 1400 from rfl]; omega)]
  · intro f hopen
    simp only [api_load_model, hnew, hopen]

/-- Witness for claim C8's hypotheses: a short file name, a failing and a
succeeding file system. -/
theorem claim_C8_witness :
    api_load_model (F := Unit) (fun _ => none) (fun m _ => m) (toChars "E")
        pcW fnameW optW =
      .error (wrap_pfatal true (cannotOpenMsg fnameW) (toChars "E")) ∧
    wrap_pfatal true (cannotOpenMsg fnameW) (toChars "E") =
      cannotOpenMsg fnameW ++ (toChars " <" ++ toChars "E" ++ toChars ">") ∧
    api_load_model (F := Unit) (fun _ => some ()) (fun m _ => m) (toChars "E")
        pcW fnameW optW = .ok mdlW :=
  ⟨(claim_C8 (fun _ => none) (fun m _ => m) (toChars "E") pcW fnameW optW mdlW
      (by decide)).1 rfl,
   (claim_C8 (F := Unit) (fun _ => none) (fun m _ => m) (toChars "E") pcW
      fnameW optW mdlW (by decide)).2.1 (by decide),
   (claim_C8 (fun _ => some ()) (fun m _ => m) (toChars "E") pcW fnameW optW
      mdlW (by decide)).2.2 () rfl⟩

/-- Counterexample to claim C8 as stated: with a 1366-character path the
rendered message is 1396 characters, `snprintf`'s `MAXLOGMSG - msglen` bound
leaves room for only 3 more characters, and the dispatched message ends in
`" <E"` — the OS error description is not appended in (closed) angle
brackets. -/
theorem claim_C8_counterexample :
    api_load_model (F := Unit) (fun _ => none) (fun m _ => m) (toChars "E")
        pcW fnameLong optW =
      .error (cannotOpenMsg fnameLong ++ toChars " <E") ∧
    cannotOpenMsg fnameLong ++ toChars " <E" ≠
      cannotOpenMsg fnameLong ++ (toChars " <" ++ toChars "E" ++ toChars ">") := by
  have hlen : (cannotOpenMsg fnameLong).length = 1396 := by
    rw [cannotOpenMsg, List.length_append, fnameLong, List.length_replicate,
      show (toChars "cannot open input model file: ").length = 30 from rfl]
  have hmsg : vsnprintfBounded (cannotOpenMsg fnameLong) =
      cannotOpenMsg fnameLong := by
    rw [vsnprintfBounded]
    exact List.take_of_length_le (by rw [hlen]; decide)
  have h2 : wrap_pfatal true (cannotOpenMsg fnameLong) (toChars "E") =
      cannotOpenMsg fnameLong ++ toChars " <E" := by
    have hstep : wrap_pfatal true (cannotOpenMsg fnameLong) (toChars "E") =
        vsnprintfBounded (cannotOpenMsg fnameLong) ++
          (toChars " <" ++ toChars "E" ++ toChars ">").take
            (MAXLOGMSG - (vsnprintfBounded (cannotOpenMsg fnameLong)).length - 1) :=
      rfl
    rw [hstep, hmsg, hlen,
      show MAXLOGMSG - 1396 - 1 = 3 from rfl,
      show (toChars " <" ++ toChars "E" ++ toChars ">").take 3 = toChars " <E"
        from by decide]
  constructor
  · have h1 : api_load_model (F := Unit) (fun _ => none) (fun m _ => m)
        (toChars "E") pcW fnameLong optW =
        .error (wrap_pfatal true (cannotOpenMsg fnameLong) (toChars "E")) := by
      simp only [api_load_model,
        show api_new_model pcW optW none = .ok mdlW from by decide]
    rw [h1, h2]
  · intro hcontra
    have hc := congrArg List.length hcontra
    rw [List.length_append, List.length_append, hlen,
      show (toChars " <E").length = 3 from rfl,
      show (toChars " <" ++ toChars "E" ++ toChars ">").length = 4 from rfl] at hc
    omega

/-- Claim C9 (amended): each wrapper renders into the fixed 1400-character
bound (so the dispatched message has at most 1399 characters); when the
message buffer cannot be allocated the constant out-of-memory message is
dispatched instead, and it is non-empty; the dispatched message is never
null; a fatal-with-system-error message is non-empty unconditionally, even
for an empty format (the bracketed OS error description is still appended),
and the fatal/warning/info messages are non-empty whenever the formatted
message is non-empty. -/
theorem claim_C9 (full err : List Char) :
    (∀ allocOk : Bool,
      (wrap_fatal allocOk full).length ≤ MAXLOGMSG - 1 ∧
      (wrap_warning allocOk full).length ≤ MAXLOGMSG - 1 ∧
      (wrap_info allocOk full).length ≤ MAXLOGMSG - 1 ∧
      (wrap_pfatal allocOk full err).length ≤ MAXLOGMSG - 1 ∧
      wrap_pfatal allocOk full err ≠ []) ∧
    (full ≠ [] → ∀ allocOk : Bool,
      wrap_fatal allocOk full ≠ [] ∧ wrap_warning allocOk full ≠ [] ∧
      wrap_info allocOk full ≠ []) ∧
    wrap_fatal false full = OOMMSG ∧ wrap_warning false full = OOMMSG ∧
    wrap_info false full = OOMMSG ∧ wrap_pfatal false full err = OOMMSG ∧
    OOMMSG ≠ [] := by
  have hoomlen : OOMMSG.length ≤ MAXLOGMSG - 1 := by decide
  have hoomne : OOMMSG ≠ [] := by decide
  have hvlen : (vsnprintfBounded full).length ≤ MAXLOGMSG - 1 := by
    rw [vsnprintfBounded, List.length_take]
    exact Nat.min_le_left _ _
  have hstep : wrap_pfatal true full err =
      vsnprintfBounded full ++ (toChars " <" ++ err ++ toChars ">").take
        (MAXLOGMSG - (vsnprintfBounded full).length - 1) := rfl
  have hplen : (wrap_pfatal true full err).length ≤ MAXLOGMSG - 1 := by
    rw [hstep, List.length_append, List.length_take]
    have h2 := Nat.min_le_left (MAXLOGMSG - (vsnprintfBounded full).length - 1)
      ((toChars " <" ++ err ++ toChars ">").length)
    rw [show MAXLOGMSG = 1400 from rfl] at *
    omega
  have hpne : wrap_pfatal true full err ≠ [] := by
    rw [hstep]
    intro hc
    obtain ⟨h1, h2⟩ := List.append_eq_nil.mp hc
    rw [h1] at h2
    rcases List.take_eq_nil_iff.mp h2 with h | h
    · cases h
    · obtain ⟨h3, -⟩ := List.append_eq_nil.mp h
      exact absurd (List.append_eq_nil.mp h3).1 (by decide)
  refine ⟨?_, ?_, rfl, rfl, rfl, rfl, hoomne⟩
  · intro allocOk
    cases allocOk with
    | false => exact ⟨hoomlen, hoomlen, hoomlen, hoomlen, hoomne⟩
    | true => exact ⟨hvlen, hvlen, hvlen, hplen, hpne⟩
  · intro hfull allocOk
    have hvne : vsnprintfBounded full ≠ [] := by
      rw [vsnprintfBounded]
      intro hc
      rcases List.take_eq_nil_iff.mp hc with h | h
      · cases h
      · exact hfull h
    cases allocOk with
    | false => exact ⟨hoomne, hoomne, hoomne⟩
    | true => exact ⟨hvne, hvne, hvne⟩

/-- Witness for claim C9's hypothesis: the unconditional part is instantiated
at the empty format (the case the amendment singles out for
fatal-with-system-error), and the non-empty-format implication is discharged
at a concrete one-character format. -/
theorem claim_C9_witness :
    wrap_pfatal true ([] : List Char) (toChars "E") ≠ [] ∧
    (∀ allocOk : Bool,
      wrap_fatal allocOk (toChars "x") ≠ [] ∧
      wrap_warning allocOk (toChars "x") ≠ [] ∧
      wrap_info allocOk (toChars "x") ≠ []) :=
  ⟨((claim_C9 [] (toChars "E")).1 true).2.2.2.2,
   (claim_C9 (toChars "x") (toChars "E")).2.1 (by decide)⟩

/-- Counterexample to claim C9 as stated: an emission whose format renders to
the empty string dispatches an empty (though valid, non-null) message, so the
facility does not always hand the handler a non-empty string. -/
theorem claim_C9_counterexample : wrap_fatal true [] = [] := by decide

/-- Claim C6: `api_train` resolves the algorithm name against the fixed
seven-entry registry; an unregistered name is fatal ("unknown algorithm")
with no training call, and a registered name produces exactly the call
sequence sync, setup, trainer, cleanup — the synchronization first, the
abort observer installed before the trainer and torn down after it whether
or not the trainer was cancelled. -/
theorem claim_C6 (cancelled : Bool) (mdl : Mdl) :
    (mdl.opt.algo ∉ trn_names →
      api_train cancelled mdl = .error (.unknownAlgorithm mdl.opt.algo)) ∧
    (mdl.opt.algo ∈ trn_names →
      ∃ i, i < trn_names.length ∧ trn_names.getD i [] = mdl.opt.algo ∧
        api_train cancelled mdl =
          .ok [.sync, .setup, .runTrainer i cancelled, .cleanup]) := by
  constructor
  · intro h
    unfold api_train
    rw [if_pos (findIdx_eq_length_of_not_mem trn_names mdl.opt.algo h)]
  · intro h
    refine ⟨trn_names.findIdx (· == mdl.opt.algo), findIdx_lt_length_of_mem h,
      getD_findIdx_beq h [], ?_⟩
    unfold api_train
    rw [if_neg (Nat.ne_of_lt (findIdx_lt_length_of_mem h))]
    rfl

/-- Witness for claim C6's hypotheses, at an unregistered and at a
registered algorithm name. -/
theorem claim_C6_witness :
    api_train false { mdlW with opt := { optW with algo := toChars "bogus" } } =
      .error (.unknownAlgorithm (toChars "bogus")) ∧
    (∃ i, i < trn_names.length ∧ trn_names.getD i [] = mdlW.opt.algo ∧
      api_train false mdlW =
        .ok [.sync, .setup, .runTrainer i false, .cleanup]) :=
  ⟨(claim_C6 false _).1 (by decide), (claim_C6 false mdlW).2 (by decide)⟩

end Wapiti
